import Mathlib

/-!
Shallow embedding of the BlockMe voxel assembly core:
`src/blockme/palette.py` (catalog filtering and nearest-color matching) and
`src/blockme/convert.py` (the per-entry assembly loop), together with the
constants from `src/blockme/constants.py` that they use.
-/

/-! ### Constants (`src/blockme/constants.py`) -/

def MINECRAFT_AIR_BLOCK : String := "minecraft:air"

def TRANSPARENT_ALPHA : Int := 0

def SUPPORT_CHECK_OFFSET : Int := -1

/-! ### Data model -/

/-- An RGBA color: four integer channels, as the 4-tuples PIL hands to the code. -/
structure RGBA where
  r : Int
  g : Int
  b : Int
  a : Int
deriving DecidableEq, Repr

/-- One entry of `blocks.json`: a block identifier and its representative color. -/
structure BlockEntry where
  block : String
  color : RGBA
deriving DecidableEq, Repr

/-- Lookup in a string-keyed dictionary of string lists (Python `dict.get(k, [])`). -/
def dictGet (d : List (String × List String)) (k : String) : List String :=
  ((d.find? (fun kv => kv.1 == k)).map (fun kv => kv.2)).getD []

/-- Lookup in a string-keyed dictionary, `none` when the key is absent
(Python `k in d` plus `d[k]`). -/
def dictFind (d : List (String × List String)) (k : String) : Option (List String) :=
  (d.find? (fun kv => kv.1 == k)).map (fun kv => kv.2)

/-! ### Palette (`src/blockme/palette.py`) -/

/-- The palette state the matching code reads: the active block list (`self.blocks`)
and the category table (`self.blocktypes`). -/
structure PaletteState where
  blocks : List BlockEntry
  blocktypes : List (String × List String)
deriving DecidableEq, Repr

namespace Palette

/-- `Palette.get_falling_blocks`: `self.blocktypes.get("falling_blocks", [])`. -/
def get_falling_blocks (p : PaletteState) : List String :=
  dictGet p.blocktypes "falling_blocks"

/-- `Palette.color_distance`: Manhattan distance over all four channels. -/
def color_distance (c1 c2 : RGBA) : Nat :=
  (c1.r - c2.r).natAbs + (c1.g - c2.g).natAbs + (c1.b - c2.b).natAbs + (c1.a - c2.a).natAbs

/-- The scan loop of `Palette.find_block`: runs over the block list carrying the
current best `(block, best_diff)`; `none` is the initial `best = None`,
`best_diff = inf` state, replaced by the first eligible candidate (any finite
distance beats infinity), and afterwards only a strictly smaller distance
replaces the incumbent. -/
def findAux (rgba : RGBA) (falling : List String) (exclude_falling : Bool) :
    List BlockEntry → Option (String × Nat) → Option (String × Nat)
  | [], acc => acc
  | b :: rest, acc =>
    if exclude_falling && falling.contains b.block then
      findAux rgba falling exclude_falling rest acc
    else
      match acc with
      | none => findAux rgba falling exclude_falling rest (some (b.block, color_distance rgba b.color))
      | some (best, best_diff) =>
        if color_distance rgba b.color < best_diff then
          findAux rgba falling exclude_falling rest (some (b.block, color_distance rgba b.color))
        else
          findAux rgba falling exclude_falling rest (some (best, best_diff))

/-- `Palette.find_block`: best matching block for a color, optionally excluding
falling blocks; `none` when no eligible candidate exists. -/
def find_block (p : PaletteState) (rgba : RGBA) (exclude_falling : Bool) : Option String :=
  (findAux rgba (get_falling_blocks p) exclude_falling p.blocks none).map (fun br => br.1)

end Palette

/-! ### Palette configuration (`Palette.__init__` / `apply_settings`) -/

/-- The settings dictionary as `apply_settings` reads it: `custom_palette`
(`none` models an absent key), `theme` (`settings.get("theme", "none")`)
and `blocks_enabled`. -/
structure Settings where
  custom_palette : Option (List String)
  theme : String
  blocks_enabled : List (String × Bool)
deriving DecidableEq, Repr

/-- Python truthiness test `"custom_palette" in settings and settings["custom_palette"]`:
the key is present and its list is non-empty. -/
def hasCustomPalette (s : Settings) : Bool :=
  match s.custom_palette with
  | some l => !l.isEmpty
  | none => false

/-- The `disabled` set accumulated at the top of `apply_settings`: for every
category switched off in `blocks_enabled`, its members from `blocktypes`. -/
def disabledBlocks (blocktypes : List (String × List String))
    (blocks_enabled : List (String × Bool)) : List String :=
  blocks_enabled.foldl
    (fun acc kv => if kv.2 then acc else acc ++ dictGet blocktypes kv.1) []

/-- `Palette.filter_blocks_by_palette`: keep only blocks named in the allow-list;
an empty allow-list returns the full catalog, a non-empty allow-list matching
nothing raises `ValueError`. -/
def filter_blocks_by_palette (all_blocks : List BlockEntry) (palette_blocks : List String) :
    Except String (List BlockEntry) :=
  if palette_blocks.isEmpty then
    .ok all_blocks
  else
    let filtered := all_blocks.filter (fun b => palette_blocks.contains b.block)
    if filtered.isEmpty then
      .error "Palette contains no valid blocks"
    else
      .ok filtered

/-- `Palette.apply_settings`: derive the active block list from the catalog,
the category table, the predefined theme palettes and the settings; `Except.error`
models the raised `ValueError`s. -/
def apply_settings (all_blocks : List BlockEntry) (blocktypes : List (String × List String))
    (predefined_palettes : List (String × List String)) (settings : Settings) :
    Except String (List BlockEntry) :=
  let disabled := disabledBlocks blocktypes settings.blocks_enabled
  let theme := settings.theme
  let base : Except String (List BlockEntry) :=
    if hasCustomPalette settings then
      filter_blocks_by_palette all_blocks (settings.custom_palette.getD [])
    else if theme != "none" && (dictFind predefined_palettes theme).isSome then
      filter_blocks_by_palette all_blocks ((dictFind predefined_palettes theme).getD [])
    else if theme != "none" then
      .ok all_blocks
    else
      .ok all_blocks
  match base with
  | .error e => .error e
  | .ok bs =>
    let blocks := bs.filter (fun b => !disabled.contains b.block)
    if blocks.isEmpty then
      .error "No blocks available after applying palette and filters"
    else
      .ok blocks

/-! ### Structure sink (the `mcschematic.MCSchematic` interface used by the engine) -/

/-- A coordinate in the target structure: integer (x, y, z). -/
abbrev Coord := Int × Int × Int

/-- The sink interface the engine calls: `setBlock` and `getBlockStateAt`.
`getBlockStateAt` may report an occupant (`some`), report nothing (`none`,
Python `None`), or raise (`Except.error`, the `IndexError`/`KeyError`/
`AttributeError` the loop catches). -/
structure SinkModel (σ : Type) where
  setBlock : σ → Coord → String → σ
  getBlockStateAt : σ → Coord → Except Unit (Option String)

/-- The concrete schematic: a sparse association from coordinate to block. -/
abbrev Schem := List (Coord × String)

/-- `MCSchematic.setBlock`: overwrite semantics at a coordinate. -/
def schemSet (s : Schem) (c : Coord) (b : String) : Schem :=
  (c, b) :: s.filter (fun p => p.1 != c)

/-- `MCSchematic.getBlockStateAt`: the occupant at a coordinate, `none` if unset. -/
def schemGet (s : Schem) (c : Coord) : Option String :=
  (s.find? (fun p => p.1 == c)).map (fun p => p.2)

/-- The `MCSchematic` sink as the engine uses it: reads never raise. -/
def mcSink : SinkModel Schem where
  setBlock := schemSet
  getBlockStateAt := fun s c => .ok (schemGet s c)

/-- Net occupancy of a material in the concrete sink: the number of
coordinates it finally occupies. -/
def netCount (s : Schem) (m : String) : Nat :=
  (s.filter (fun p => p.2 == m)).length

/-! ### Voxel assembly engine (`src/blockme/convert.py`) -/

/-- The fatal errors `convert_to_schematic_from_positions` raises, keyed by the
offending color: "No blocks available in palette for color ..." and
"No non-falling blocks available for color ...". -/
inductive ConvError where
  | noMatch (rgba : RGBA)
  | noSupportedMatch (rgba : RGBA)
deriving DecidableEq, Repr

/-- What a single loop iteration does before touching the accumulators. -/
inductive EntryOutcome where
  | skipOOB
  | skipTransparent
  | commit (block : String)
deriving DecidableEq, Repr

/-- The exclude-falling re-match and its failure case, as duplicated in both the
no-support branch and the caught-read-error branch of the loop:
`palette.find_block(rgba, exclude_falling=True)`, raising when it returns `None`. -/
def fallingAlt (p : PaletteState) (rgba : RGBA) : Except ConvError EntryOutcome :=
  match Palette.find_block p rgba true with
  | none => .error (.noSupportedMatch rgba)
  | some alt => .ok (.commit alt)

/-- The body of the per-entry loop up to the commit: bounds check, transparency
check, primary match, falling-block support resolution. Mirrors
`convert_to_schematic_from_positions` lines 46-87. -/
def processEntry {σ : Type} (M : SinkModel σ) (p : PaletteState) (image : List RGBA)
    (schem : σ) (entry : Int × Coord) : Except ConvError EntryOutcome :=
  let idx := entry.1
  let x := entry.2.1
  let y := entry.2.2.1
  let z := entry.2.2.2
  if idx < 0 || (image.length : Int) ≤ idx then
    .ok .skipOOB
  else
    let rgba := image.getD idx.toNat ⟨0, 0, 0, 0⟩
    if rgba.a == TRANSPARENT_ALPHA then
      .ok .skipTransparent
    else
      match Palette.find_block p rgba false with
      | none => .error (.noMatch rgba)
      | some block =>
        if (Palette.get_falling_blocks p).contains block then
          match M.getBlockStateAt schem (x, y + SUPPORT_CHECK_OFFSET, z) with
          | .ok block_below =>
            if block_below == none || block_below == some MINECRAFT_AIR_BLOCK then
              fallingAlt p rgba
            else
              .ok (.commit block)
          | .error _ =>
            fallingAlt p rgba
        else
          .ok (.commit block)

/-- The engine's mutable loop state: the schematic, the `Counter` of block
usage, and the three tallies. -/
structure ConvState (σ : Type) where
  schem : σ
  counts : String → Nat
  processed : Nat
  skipped_transparent : Nat
  skipped_oob : Nat

/-- `counts[block] += 1` on a `Counter`. -/
def bump (c : String → Nat) (k : String) : String → Nat :=
  fun m => if m = k then c m + 1 else c m

/-- One full loop iteration: resolve the entry, then update the accumulators
(`continue` on a skip, `setBlock` + count + processed on a commit, the raised
error propagates). -/
def convStep {σ : Type} (M : SinkModel σ) (p : PaletteState) (image : List RGBA)
    (st : ConvState σ) (entry : Int × Coord) : Except ConvError (ConvState σ) :=
  match processEntry M p image st.schem entry with
  | .error err => .error err
  | .ok .skipOOB => .ok { st with skipped_oob := st.skipped_oob + 1 }
  | .ok .skipTransparent => .ok { st with skipped_transparent := st.skipped_transparent + 1 }
  | .ok (.commit b) =>
    .ok { st with
            schem := M.setBlock st.schem entry.2 b,
            counts := bump st.counts b,
            processed := st.processed + 1 }

/-- The loop over the mapping positions, in order. -/
def convertAux {σ : Type} (M : SinkModel σ) (p : PaletteState) (image : List RGBA) :
    List (Int × Coord) → ConvState σ → Except ConvError (ConvState σ)
  | [], st => .ok st
  | e :: rest, st =>
    match convStep M p image st e with
    | .error err => .error err
    | .ok st2 => convertAux M p image rest st2

/-- `convert_to_schematic_from_positions`: fresh schematic and counters, then
the loop over every mapping entry. -/
def convert_to_schematic_from_positions {σ : Type} (M : SinkModel σ) (init : σ)
    (image : List RGBA) (mapping_positions : List (Int × Coord)) (p : PaletteState) :
    Except ConvError (ConvState σ) :=
  convertAux M p image mapping_positions
    { schem := init, counts := fun _ => 0, processed := 0,
      skipped_transparent := 0, skipped_oob := 0 }

/-- The engine as actually invoked: on a fresh `MCSchematic`. -/
def mcConvert (image : List RGBA) (mapping_positions : List (Int × Coord))
    (p : PaletteState) : Except ConvError (ConvState Schem) :=
  convert_to_schematic_from_positions mcSink [] image mapping_positions p

namespace Palette

/-- Eligibility of a block during a `find_block` scan: skipped only when falling
blocks are excluded and the block is one. -/
def elig (falling : List String) (exclude_falling : Bool) (b : BlockEntry) : Bool :=
  !(exclude_falling && falling.contains b.block)

end Palette

/-- The bounds-check condition of the loop: the pixel index does not address
a pixel of the image. -/
def isOOBEntry (image : List RGBA) (e : Int × Coord) : Bool :=
  e.1 < 0 || (image.length : Int) ≤ e.1

/-- The transparency-skip condition of the loop: in range, alpha zero. -/
def isTranspEntry (image : List RGBA) (e : Int × Coord) : Bool :=
  !(isOOBEntry image e) && ((image.getD e.1.toNat ⟨0, 0, 0, 0⟩).a == TRANSPARENT_ALPHA)

/-- An entry that passes both skip checks and reaches the primary match. -/
def isAttemptedEntry (image : List RGBA) (e : Int × Coord) : Bool :=
  !(isOOBEntry image e) && !(isTranspEntry image e)

/-- The sequence of blocks the loop commits, in order: the raw `setBlock` calls
(one count increment each) made by a successful traversal. -/
def commitTrace {σ : Type} (M : SinkModel σ) (p : PaletteState) (image : List RGBA) :
    List (Int × Coord) → σ → List String
  | [], _ => []
  | e :: rest, schem =>
    match processEntry M p image schem e with
    | .error _ => []
    | .ok .skipOOB => commitTrace M p image rest schem
    | .ok .skipTransparent => commitTrace M p image rest schem
    | .ok (.commit b) => b :: commitTrace M p image rest (M.setBlock schem e.2 b)

/-- The spec scenario for C3: catalog A (dark, non-falling) and B (light, falling),
two entries stacking B on top of A. -/
def scenPalette : PaletteState :=
  { blocks := [⟨"A", ⟨0, 0, 0, 255⟩⟩, ⟨"B", ⟨255, 255, 255, 255⟩⟩],
    blocktypes := [("falling_blocks", ["B"])] }

def scenImage : List RGBA := [⟨10, 10, 10, 255⟩, ⟨240, 240, 240, 255⟩]

def scenPositions : List (Int × Coord) := [(0, (0, 0, 0)), (1, (0, 1, 0))]

/-- A sink whose reads always raise, exercising the caught-exception branch. -/
def failSink : SinkModel Unit where
  setBlock := fun _ _ _ => ()
  getBlockStateAt := fun _ _ => .error ()

/-- An all-falling catalog used to exercise the fatal no-supported-match path. -/
def c7Palette : PaletteState :=
  { blocks := [⟨"B", ⟨255, 255, 255, 255⟩⟩], blocktypes := [("falling_blocks", ["B"])] }

/-- The fresh loop state `convert_to_schematic_from_positions` starts from. -/
def initState {σ : Type} (init : σ) : ConvState σ :=
  { schem := init, counts := fun _ => 0, processed := 0,
    skipped_transparent := 0, skipped_oob := 0 }

def c9Palette : PaletteState := { blocks := [⟨"A", ⟨0, 0, 0, 255⟩⟩], blocktypes := [] }

def c9Image : List RGBA := [⟨0, 0, 0, 0⟩, ⟨1, 1, 1, 255⟩]

def c9Positions : List (Int × Coord) :=
  [(5, (0, 0, 0)), (0, (0, 1, 0)), (1, (0, 2, 0))]

def c1Palette : PaletteState := { blocks := [⟨"A", ⟨0, 0, 0, 255⟩⟩], blocktypes := [] }

def c1Image : List RGBA := [⟨0, 0, 0, 255⟩, ⟨1, 1, 1, 255⟩]

/-- Two distinct pixels mapped to the same target coordinate. -/
def c1Positions : List (Int × Coord) := [(0, (0, 0, 0)), (1, (0, 0, 0))]

/-! ### Palette lemmas -/

namespace Palette

theorem findAux_cons_skip {rgba : RGBA} {falling : List String} {ex : Bool}
    {b : BlockEntry} {rest : List BlockEntry} {acc : Option (String × Nat)}
    (h : (ex && falling.contains b.block) = true) :
    findAux rgba falling ex (b :: rest) acc = findAux rgba falling ex rest acc := by
  cases acc with
  | none => rw [findAux, if_pos h]
  | some v => rw [findAux, if_pos h]

theorem findAux_cons_none {rgba : RGBA} {falling : List String} {ex : Bool}
    {b : BlockEntry} {rest : List BlockEntry}
    (h : (ex && falling.contains b.block) = false) :
    findAux rgba falling ex (b :: rest) none =
      findAux rgba falling ex rest (some (b.block, color_distance rgba b.color)) := by
  rw [findAux, if_neg (by rw [h]; simp)]

theorem findAux_cons_lt {rgba : RGBA} {falling : List String} {ex : Bool}
    {b : BlockEntry} {rest : List BlockEntry} {best : String} {bd : Nat}
    (h : (ex && falling.contains b.block) = false)
    (hlt : color_distance rgba b.color < bd) :
    findAux rgba falling ex (b :: rest) (some (best, bd)) =
      findAux rgba falling ex rest (some (b.block, color_distance rgba b.color)) := by
  rw [findAux, if_neg (by rw [h]; simp)]
  exact if_pos hlt

theorem findAux_cons_ge {rgba : RGBA} {falling : List String} {ex : Bool}
    {b : BlockEntry} {rest : List BlockEntry} {best : String} {bd : Nat}
    (h : (ex && falling.contains b.block) = false)
    (hge : ¬ color_distance rgba b.color < bd) :
    findAux rgba falling ex (b :: rest) (some (best, bd)) =
      findAux rgba falling ex rest (some (best, bd)) := by
  rw [findAux, if_neg (by rw [h]; simp)]
  exact if_neg hge

theorem findAux_some_spec (rgba : RGBA) (falling : List String) (ex : Bool)
    (l : List BlockEntry) (best : String) (bd : Nat) :
    (findAux rgba falling ex l (some (best, bd)) = some (best, bd) ∧
      ∀ b' ∈ l, elig falling ex b' = true → bd ≤ color_distance rgba b'.color)
    ∨ (∃ i, ∃ hi : i < l.length,
        elig falling ex (l.get ⟨i, hi⟩) = true ∧
        findAux rgba falling ex l (some (best, bd)) =
          some ((l.get ⟨i, hi⟩).block, color_distance rgba (l.get ⟨i, hi⟩).color) ∧
        color_distance rgba (l.get ⟨i, hi⟩).color < bd ∧
        (∀ b' ∈ l, elig falling ex b' = true →
          color_distance rgba (l.get ⟨i, hi⟩).color ≤ color_distance rgba b'.color) ∧
        (∀ b' ∈ l.take i, elig falling ex b' = true →
          color_distance rgba (l.get ⟨i, hi⟩).color < color_distance rgba b'.color)) := by
  induction l generalizing best bd with
  | nil =>
    left
    exact ⟨rfl, by simp⟩
  | cons b rest ih =>
    cases hexc : ex && falling.contains b.block with
    | true =>
      have hbne : elig falling ex b = false := by unfold elig; rw [hexc]; rfl
      rcases ih best bd with ⟨heq, hmin⟩ | ⟨i, hi, heli, heq, hlt, hmin, hfirst⟩
      · left
        refine ⟨(findAux_cons_skip hexc).trans heq, ?_⟩
        intro b' hb' hel
        rcases List.mem_cons.mp hb' with rfl | hb'
        · rw [hbne] at hel; exact absurd hel (by simp)
        · exact hmin b' hb' hel
      · right
        refine ⟨i + 1, Nat.succ_lt_succ hi, by simpa using heli,
          (findAux_cons_skip hexc).trans (by simpa using heq), by simpa using hlt, ?_, ?_⟩
        · intro b' hb' hel
          rcases List.mem_cons.mp hb' with rfl | hb'
          · rw [hbne] at hel; exact absurd hel (by simp)
          · simpa using hmin b' hb' hel
        · intro b' hb' hel
          simp only [List.take_succ_cons, List.mem_cons] at hb'
          rcases hb' with rfl | hb'
          · rw [hbne] at hel; exact absurd hel (by simp)
          · simpa using hfirst b' hb' hel
    | false =>
      have hbel : elig falling ex b = true := by unfold elig; rw [hexc]; rfl
      by_cases hcmp : color_distance rgba b.color < bd
      · rcases ih b.block (color_distance rgba b.color) with
          ⟨heq, hmin⟩ | ⟨i, hi, heli, heq, hlt, hmin, hfirst⟩
        · right
          refine ⟨0, Nat.succ_pos _, by simpa using hbel,
            (findAux_cons_lt hexc hcmp).trans (by simpa using heq), by simpa using hcmp, ?_, ?_⟩
          · intro b' hb' hel
            rcases List.mem_cons.mp hb' with rfl | hb'
            · simp
            · simpa using hmin b' hb' hel
          · intro b' hb' hel
            simp at hb'
        · right
          refine ⟨i + 1, Nat.succ_lt_succ hi, by simpa using heli,
            (findAux_cons_lt hexc hcmp).trans (by simpa using heq), ?_, ?_, ?_⟩
          · have : color_distance rgba (rest.get ⟨i, hi⟩).color < bd :=
              Nat.lt_trans hlt hcmp
            simpa using this
          · intro b' hb' hel
            rcases List.mem_cons.mp hb' with rfl | hb'
            · simpa using Nat.le_of_lt hlt
            · simpa using hmin b' hb' hel
          · intro b' hb' hel
            simp only [List.take_succ_cons, List.mem_cons] at hb'
            rcases hb' with rfl | hb'
            · simpa using hlt
            · simpa using hfirst b' hb' hel
      · rcases ih best bd with ⟨heq, hmin⟩ | ⟨i, hi, heli, heq, hlt, hmin, hfirst⟩
        · left
          refine ⟨(findAux_cons_ge hexc hcmp).trans heq, ?_⟩
          intro b' hb' hel
          rcases List.mem_cons.mp hb' with rfl | hb'
          · exact Nat.le_of_not_lt hcmp
          · exact hmin b' hb' hel
        · right
          refine ⟨i + 1, Nat.succ_lt_succ hi, by simpa using heli,
            (findAux_cons_ge hexc hcmp).trans (by simpa using heq), by simpa using hlt, ?_, ?_⟩
          · intro b' hb' hel
            rcases List.mem_cons.mp hb' with rfl | hb'
            · have h2 : bd ≤ color_distance rgba b'.color := Nat.le_of_not_lt hcmp
              simpa using Nat.le_of_lt (Nat.lt_of_lt_of_le hlt h2)
            · simpa using hmin b' hb' hel
          · intro b' hb' hel
            simp only [List.take_succ_cons, List.mem_cons] at hb'
            rcases hb' with rfl | hb'
            · have h2 : bd ≤ color_distance rgba b'.color := Nat.le_of_not_lt hcmp
              simpa using Nat.lt_of_lt_of_le hlt h2
            · simpa using hfirst b' hb' hel

theorem findAux_none_of_no_elig (rgba : RGBA) (falling : List String) (ex : Bool)
    (l : List BlockEntry) (h : ∀ b ∈ l, elig falling ex b = false) :
    findAux rgba falling ex l none = none := by
  induction l with
  | nil => rfl
  | cons b rest ih =>
    have hexc : (ex && falling.contains b.block) = true := by
      have hb := h b (List.mem_cons_self b rest)
      unfold elig at hb
      simpa using hb
    rw [findAux_cons_skip hexc]
    exact ih (fun b' hb' => h b' (List.mem_cons_of_mem b hb'))

theorem findAux_none_spec (rgba : RGBA) (falling : List String) (ex : Bool)
    (l : List BlockEntry) (h : ∃ b ∈ l, elig falling ex b = true) :
    ∃ i, ∃ hi : i < l.length,
      elig falling ex (l.get ⟨i, hi⟩) = true ∧
      findAux rgba falling ex l none =
        some ((l.get ⟨i, hi⟩).block, color_distance rgba (l.get ⟨i, hi⟩).color) ∧
      (∀ b' ∈ l, elig falling ex b' = true →
        color_distance rgba (l.get ⟨i, hi⟩).color ≤ color_distance rgba b'.color) ∧
      (∀ b' ∈ l.take i, elig falling ex b' = true →
        color_distance rgba (l.get ⟨i, hi⟩).color < color_distance rgba b'.color) := by
  induction l with
  | nil => simp at h
  | cons b rest ih =>
    cases hexc : ex && falling.contains b.block with
    | true =>
      have hbne : elig falling ex b = false := by unfold elig; rw [hexc]; rfl
      have hrest : ∃ b' ∈ rest, elig falling ex b' = true := by
        rcases h with ⟨b', hb', hel⟩
        rcases List.mem_cons.mp hb' with rfl | hb'
        · rw [hbne] at hel; exact absurd hel (by simp)
        · exact ⟨b', hb', hel⟩
      rcases ih hrest with ⟨i, hi, heli, heq, hmin, hfirst⟩
      refine ⟨i + 1, Nat.succ_lt_succ hi, by simpa using heli,
        (findAux_cons_skip hexc).trans (by simpa using heq), ?_, ?_⟩
      · intro b' hb' hel
        rcases List.mem_cons.mp hb' with rfl | hb'
        · rw [hbne] at hel; exact absurd hel (by simp)
        · simpa using hmin b' hb' hel
      · intro b' hb' hel
        simp only [List.take_succ_cons, List.mem_cons] at hb'
        rcases hb' with rfl | hb'
        · rw [hbne] at hel; exact absurd hel (by simp)
        · simpa using hfirst b' hb' hel
    | false =>
      have hbel : elig falling ex b = true := by unfold elig; rw [hexc]; rfl
      rcases findAux_some_spec rgba falling ex rest b.block (color_distance rgba b.color) with
        ⟨heq, hmin⟩ | ⟨i, hi, heli, heq, hlt, hmin, hfirst⟩
      · refine ⟨0, Nat.succ_pos _, by simpa using hbel,
          (findAux_cons_none hexc).trans (by simpa using heq), ?_, ?_⟩
        · intro b' hb' hel
          rcases List.mem_cons.mp hb' with rfl | hb'
          · simp
          · simpa using hmin b' hb' hel
        · intro b' hb' hel
          simp at hb'
      · refine ⟨i + 1, Nat.succ_lt_succ hi, by simpa using heli,
          (findAux_cons_none hexc).trans (by simpa using heq), ?_, ?_⟩
        · intro b' hb' hel
          rcases List.mem_cons.mp hb' with rfl | hb'
          · simpa using Nat.le_of_lt hlt
          · simpa using hmin b' hb' hel
        · intro b' hb' hel
          simp only [List.take_succ_cons, List.mem_cons] at hb'
          rcases hb' with rfl | hb'
          · simpa using hlt
          · simpa using hfirst b' hb' hel

theorem find_block_spec (p : PaletteState) (rgba : RGBA) (ex : Bool)
    (h : ∃ b ∈ p.blocks, elig (get_falling_blocks p) ex b = true) :
    ∃ i, ∃ hi : i < p.blocks.length,
      elig (get_falling_blocks p) ex (p.blocks.get ⟨i, hi⟩) = true ∧
      find_block p rgba ex = some ((p.blocks.get ⟨i, hi⟩).block) ∧
      (∀ b' ∈ p.blocks, elig (get_falling_blocks p) ex b' = true →
        color_distance rgba (p.blocks.get ⟨i, hi⟩).color ≤ color_distance rgba b'.color) ∧
      (∀ b' ∈ p.blocks.take i, elig (get_falling_blocks p) ex b' = true →
        color_distance rgba (p.blocks.get ⟨i, hi⟩).color < color_distance rgba b'.color) := by
  rcases findAux_none_spec rgba (get_falling_blocks p) ex p.blocks h with
    ⟨i, hi, heli, heq, hmin, hfirst⟩
  exact ⟨i, hi, heli, by rw [find_block, heq]; rfl, hmin, hfirst⟩

theorem elig_false_true (falling : List String) (b : BlockEntry) :
    elig falling false b = true := by
  unfold elig; rfl

theorem find_block_isSome (p : PaletteState) (rgba : RGBA) (h : p.blocks ≠ []) :
    (find_block p rgba false).isSome = true := by
  rcases List.exists_mem_of_ne_nil p.blocks h with ⟨b, hb⟩
  rcases find_block_spec p rgba false ⟨b, hb, elig_false_true _ b⟩ with
    ⟨i, hi, _, heq, _, _⟩
  rw [heq]; rfl

theorem find_block_none_of_all_falling (p : PaletteState) (rgba : RGBA)
    (h : ∀ b ∈ p.blocks, (get_falling_blocks p).contains b.block = true) :
    find_block p rgba true = none := by
  rw [find_block, findAux_none_of_no_elig]
  · rfl
  · intro b hb
    unfold elig
    rw [Bool.true_and, h b hb]
    rfl

theorem find_block_true_not_falling (p : PaletteState) (rgba : RGBA) (m : String)
    (h : find_block p rgba true = some m) :
    (get_falling_blocks p).contains m = false := by
  by_cases hex : ∃ b ∈ p.blocks, elig (get_falling_blocks p) true b = true
  · rcases find_block_spec p rgba true hex with ⟨i, hi, heli, heq, _, _⟩
    rw [heq] at h
    have hm : (p.blocks.get ⟨i, hi⟩).block = m := by
      exact Option.some.inj h
    unfold elig at heli
    rw [← hm]
    simpa using heli
  · have hall : ∀ b ∈ p.blocks, (get_falling_blocks p).contains b.block = true := by
      intro b hb
      by_contra hc
      rw [Bool.not_eq_true] at hc
      exact hex ⟨b, hb, by unfold elig; rw [hc]; rfl⟩
    rw [find_block_none_of_all_falling p rgba hall] at h
    exact absurd h (by simp)

end Palette

/-! ### Engine lemmas -/

theorem processEntry_skipOOB {σ : Type} (M : SinkModel σ) (p : PaletteState)
    (image : List RGBA) (schem : σ) (e : Int × Coord)
    (h : isOOBEntry image e = true) :
    processEntry M p image schem e = .ok .skipOOB := by
  unfold isOOBEntry at h
  simp only [processEntry]
  rw [if_pos h]

theorem processEntry_skipTransp {σ : Type} (M : SinkModel σ) (p : PaletteState)
    (image : List RGBA) (schem : σ) (e : Int × Coord)
    (h : isTranspEntry image e = true) :
    processEntry M p image schem e = .ok .skipTransparent := by
  unfold isTranspEntry isOOBEntry at h
  rw [Bool.and_eq_true] at h
  have hc : (decide (e.1 < 0) || decide ((image.length : Int) ≤ e.1)) = false := by
    simpa using h.1
  simp only [processEntry]
  rw [if_neg (by rw [hc]; simp)]
  rw [if_pos h.2]

theorem processEntry_attempt {σ : Type} (M : SinkModel σ) (p : PaletteState)
    (image : List RGBA) (schem : σ) (e : Int × Coord)
    (h1 : isOOBEntry image e = false)
    (h2 : isTranspEntry image e = false) :
    (∃ err, processEntry M p image schem e = .error err) ∨
    (∃ b, processEntry M p image schem e = .ok (.commit b)) := by
  unfold isOOBEntry at h1
  have ha : ((image.getD e.1.toNat ⟨0, 0, 0, 0⟩).a == TRANSPARENT_ALPHA) = false := by
    unfold isTranspEntry isOOBEntry at h2
    rw [h1] at h2
    simpa using h2
  have key : processEntry M p image schem e =
      (match Palette.find_block p (image.getD e.1.toNat ⟨0, 0, 0, 0⟩) false with
        | none => .error (.noMatch (image.getD e.1.toNat ⟨0, 0, 0, 0⟩))
        | some block =>
          if (Palette.get_falling_blocks p).contains block then
            match M.getBlockStateAt schem (e.2.1, e.2.2.1 + SUPPORT_CHECK_OFFSET, e.2.2.2) with
            | .ok block_below =>
              if block_below == none || block_below == some MINECRAFT_AIR_BLOCK then
                fallingAlt p (image.getD e.1.toNat ⟨0, 0, 0, 0⟩)
              else .ok (.commit block)
            | .error _ => fallingAlt p (image.getD e.1.toNat ⟨0, 0, 0, 0⟩)
          else .ok (.commit block)) := by
    simp only [processEntry]
    rw [if_neg (by rw [h1]; simp), if_neg (by rw [ha]; simp)]
  rw [key]
  rcases hfb : Palette.find_block p (image.getD e.1.toNat ⟨0, 0, 0, 0⟩) false with _ | m
  · exact Or.inl ⟨.noMatch (image.getD e.1.toNat ⟨0, 0, 0, 0⟩), by simp only [hfb]⟩
  · by_cases hf : ((Palette.get_falling_blocks p).contains m) = true
    · have hf2 : m ∈ Palette.get_falling_blocks p := by simpa using hf
      rcases hr : M.getBlockStateAt schem (e.2.1, e.2.2.1 + SUPPORT_CHECK_OFFSET, e.2.2.2) with u | ob
      · rcases hfb2 : Palette.find_block p (image.getD e.1.toNat ⟨0, 0, 0, 0⟩) true with _ | m2
        · exact Or.inl ⟨.noSupportedMatch (image.getD e.1.toNat ⟨0, 0, 0, 0⟩),
            by simp [hfb, hf2, hr, fallingAlt, hfb2, -List.getD_eq_getElem?_getD]⟩
        · exact Or.inr ⟨m2, by simp [hfb, hf2, hr, fallingAlt, hfb2, -List.getD_eq_getElem?_getD]⟩
      · by_cases hvoid : (ob == none || ob == some MINECRAFT_AIR_BLOCK) = true
        · have hv2 : ob = none ∨ ob = some MINECRAFT_AIR_BLOCK := by simpa using hvoid
          rcases hfb2 : Palette.find_block p (image.getD e.1.toNat ⟨0, 0, 0, 0⟩) true with _ | m2
          · exact Or.inl ⟨.noSupportedMatch (image.getD e.1.toNat ⟨0, 0, 0, 0⟩),
              by simp [hfb, hf2, hr, hv2, fallingAlt, hfb2, -List.getD_eq_getElem?_getD]⟩
          · exact Or.inr ⟨m2, by simp [hfb, hf2, hr, hv2, fallingAlt, hfb2, -List.getD_eq_getElem?_getD]⟩
        · refine Or.inr ⟨m, ?_⟩
          have hv2 : ¬(ob = none ∨ ob = some MINECRAFT_AIR_BLOCK) := by simpa using hvoid
          simp [hfb, hf2, hr, hv2]
    · refine Or.inr ⟨m, ?_⟩
      have hf2 : m ∉ Palette.get_falling_blocks p := by simpa using hf
      simp [hfb, hf2]

theorem convertAux_counts {σ : Type} (M : SinkModel σ) (p : PaletteState) (image : List RGBA) :
    ∀ (positions : List (Int × Coord)) (st0 st : ConvState σ),
      convertAux M p image positions st0 = .ok st →
      st.skipped_oob = st0.skipped_oob + positions.countP (fun e => isOOBEntry image e) ∧
      st.skipped_transparent =
        st0.skipped_transparent + positions.countP (fun e => isTranspEntry image e) ∧
      st.processed = st0.processed + positions.countP (fun e => isAttemptedEntry image e) := by
  intro positions
  induction positions with
  | nil =>
    intro st0 st h
    have hst : st0 = st := by simpa [convertAux] using h
    simp [hst.symm]
  | cons e rest ih =>
    intro st0 st h
    cases hoob : isOOBEntry image e with
    | true =>
      have hpe := processEntry_skipOOB M p image st0.schem e hoob
      have hstep : convStep M p image st0 e = .ok { st0 with skipped_oob := st0.skipped_oob + 1 } := by
        simp [convStep, hpe]
      rw [convertAux, hstep] at h
      have htr : isTranspEntry image e = false := by
        unfold isTranspEntry; rw [hoob]; rfl
      have hat : isAttemptedEntry image e = false := by
        unfold isAttemptedEntry; rw [hoob]; rfl
      rcases ih _ _ h with ⟨h1, h2, h3⟩
      refine ⟨?_, ?_, ?_⟩ <;>
        (simp [h1, h2, h3, List.countP_cons, hoob, htr, hat]; try omega)
    | false =>
      cases htr : isTranspEntry image e with
      | true =>
        have hpe := processEntry_skipTransp M p image st0.schem e htr
        have hstep : convStep M p image st0 e =
            .ok { st0 with skipped_transparent := st0.skipped_transparent + 1 } := by
          simp [convStep, hpe]
        rw [convertAux, hstep] at h
        have hat : isAttemptedEntry image e = false := by
          unfold isAttemptedEntry; rw [htr]; simp
        rcases ih _ _ h with ⟨h1, h2, h3⟩
        refine ⟨?_, ?_, ?_⟩ <;>
          (simp [h1, h2, h3, List.countP_cons, hoob, htr, hat]; try omega)
      | false =>
        have hat : isAttemptedEntry image e = true := by
          unfold isAttemptedEntry; rw [hoob, htr]; rfl
        rcases processEntry_attempt M p image st0.schem e hoob htr with ⟨err, hpe⟩ | ⟨b, hpe⟩
        · rw [convertAux] at h
          simp [convStep, hpe] at h
        · have hstep : convStep M p image st0 e =
              .ok { st0 with
                      schem := M.setBlock st0.schem e.2 b,
                      counts := bump st0.counts b,
                      processed := st0.processed + 1 } := by
            simp [convStep, hpe]
          rw [convertAux, hstep] at h
          rcases ih _ _ h with ⟨h1, h2, h3⟩
          refine ⟨?_, ?_, ?_⟩ <;>
            (simp [h1, h2, h3, List.countP_cons, hoob, htr, hat]; try omega)

theorem countP_entry_partition (image : List RGBA) (positions : List (Int × Coord)) :
    positions.countP (fun e => isOOBEntry image e) +
      positions.countP (fun e => isTranspEntry image e) +
      positions.countP (fun e => isAttemptedEntry image e) = positions.length := by
  induction positions with
  | nil => simp
  | cons e rest ih =>
    cases hoob : isOOBEntry image e with
    | true =>
      have htr : isTranspEntry image e = false := by
        unfold isTranspEntry; rw [hoob]; rfl
      have hat : isAttemptedEntry image e = false := by
        unfold isAttemptedEntry; rw [hoob]; rfl
      simp [List.countP_cons, hoob, htr, hat]
      omega
    | false =>
      cases htr : isTranspEntry image e with
      | true =>
        have hat : isAttemptedEntry image e = false := by
          unfold isAttemptedEntry; rw [htr]; simp
        simp [List.countP_cons, hoob, htr, hat]
        omega
      | false =>
        have hat : isAttemptedEntry image e = true := by
          unfold isAttemptedEntry; rw [hoob, htr]; rfl
        simp [List.countP_cons, hoob, htr, hat]
        omega

theorem convertAux_append {σ : Type} (M : SinkModel σ) (p : PaletteState) (image : List RGBA)
    (l1 l2 : List (Int × Coord)) (st0 : ConvState σ) :
    convertAux M p image (l1 ++ l2) st0 =
      match convertAux M p image l1 st0 with
      | .error err => .error err
      | .ok st => convertAux M p image l2 st := by
  induction l1 generalizing st0 with
  | nil => rfl
  | cons e rest ih =>
    rw [List.cons_append, convertAux, convertAux]
    cases convStep M p image st0 e with
    | error err => rfl
    | ok st2 => exact ih st2

theorem convertAux_counts_eq_trace {σ : Type} (M : SinkModel σ) (p : PaletteState)
    (image : List RGBA) :
    ∀ (positions : List (Int × Coord)) (st0 st : ConvState σ),
      convertAux M p image positions st0 = .ok st →
      ∀ m, st.counts m =
        st0.counts m + (commitTrace M p image positions st0.schem).count m := by
  intro positions
  induction positions with
  | nil =>
    intro st0 st h m
    have hst : st0 = st := by simpa [convertAux] using h
    simp [hst.symm, commitTrace]
  | cons e rest ih =>
    intro st0 st h m
    rw [convertAux] at h
    rcases hpe : processEntry M p image st0.schem e with err | out
    · simp [convStep, hpe] at h
    · cases out with
      | skipOOB =>
        have hstep : convStep M p image st0 e =
            .ok { st0 with skipped_oob := st0.skipped_oob + 1 } := by
          simp [convStep, hpe]
        rw [hstep] at h
        have := ih _ _ h m
        simpa [commitTrace, hpe] using this
      | skipTransparent =>
        have hstep : convStep M p image st0 e =
            .ok { st0 with skipped_transparent := st0.skipped_transparent + 1 } := by
          simp [convStep, hpe]
        rw [hstep] at h
        have := ih _ _ h m
        simpa [commitTrace, hpe] using this
      | commit b =>
        have hstep : convStep M p image st0 e =
            .ok { st0 with
                    schem := M.setBlock st0.schem e.2 b,
                    counts := bump st0.counts b,
                    processed := st0.processed + 1 } := by
          simp [convStep, hpe]
        rw [hstep] at h
        have hrec := ih _ _ h m
        dsimp only at hrec
        have hct : commitTrace M p image (e :: rest) st0.schem =
            b :: commitTrace M p image rest (M.setBlock st0.schem e.2 b) := by
          simp only [commitTrace, hpe]
        rw [hct, hrec]
        by_cases hm : m = b
        · subst hm
          simp only [bump, if_pos rfl, List.count_cons, beq_self_eq_true, if_true]
          omega
        · have hm2 : ¬ b = m := fun hb => hm hb.symm
          simp only [bump, if_neg hm, List.count_cons]
          simp [hm2]

theorem processEntry_matched {σ : Type} (M : SinkModel σ) (p : PaletteState)
    (image : List RGBA) (schem : σ) (idx x y z : Int) (rgba : RGBA) (m : String)
    (h0 : 0 ≤ idx) (h1 : idx < (image.length : Int))
    (hpix : image.getD idx.toNat ⟨0, 0, 0, 0⟩ = rgba)
    (ha : rgba.a ≠ TRANSPARENT_ALPHA)
    (hfind : Palette.find_block p rgba false = some m) :
    processEntry M p image schem (idx, (x, y, z)) =
      (if (Palette.get_falling_blocks p).contains m then
        match M.getBlockStateAt schem (x, y + SUPPORT_CHECK_OFFSET, z) with
        | .ok block_below =>
          if block_below == none || block_below == some MINECRAFT_AIR_BLOCK then
            fallingAlt p rgba
          else .ok (.commit m)
        | .error _ => fallingAlt p rgba
      else .ok (.commit m)) := by
  simp only [processEntry]
  rw [if_neg (by simp; omega)]
  rw [hpix]
  rw [if_neg (by simp [TRANSPARENT_ALPHA] at ha ⊢; exact ha)]
  simp only [hfind]

/-! ### The claims -/

theorem processEntry_error_inv {σ : Type} (M : SinkModel σ) (p : PaletteState)
    (image : List RGBA) (schem : σ) (e : Int × Coord) (err : ConvError)
    (herr : processEntry M p image schem e = .error err) :
    (∃ c, err = .noMatch c ∧ Palette.find_block p c false = none) ∨
    (∃ c, err = .noSupportedMatch c) := by
  cases hoob : isOOBEntry image e with
  | true =>
    rw [processEntry_skipOOB M p image schem e hoob] at herr
    exact absurd herr (by simp)
  | false =>
    cases htr : isTranspEntry image e with
    | true =>
      rw [processEntry_skipTransp M p image schem e htr] at herr
      exact absurd herr (by simp)
    | false =>
      unfold isOOBEntry at hoob
      have ha : ((image.getD e.1.toNat ⟨0, 0, 0, 0⟩).a == TRANSPARENT_ALPHA) = false := by
        unfold isTranspEntry isOOBEntry at htr
        rw [hoob] at htr
        simpa using htr
      rw [processEntry] at herr
      rw [if_neg (by rw [hoob]; simp)] at herr
      rw [if_neg (by rw [ha]; simp)] at herr
      rcases hfb : Palette.find_block p (image.getD e.1.toNat ⟨0, 0, 0, 0⟩) false with _ | m
      · simp only [hfb] at herr
        refine Or.inl ⟨image.getD e.1.toNat ⟨0, 0, 0, 0⟩, ?_, hfb⟩
        simpa using herr.symm
      · simp only [hfb] at herr
        by_cases hf : ((Palette.get_falling_blocks p).contains m) = true
        · rw [if_pos hf] at herr
          rcases hr : M.getBlockStateAt schem (e.2.1, e.2.2.1 + SUPPORT_CHECK_OFFSET, e.2.2.2) with u | ob
          · simp only [hr] at herr
            rcases hfb2 : Palette.find_block p (image.getD e.1.toNat ⟨0, 0, 0, 0⟩) true with _ | m2
            · simp only [fallingAlt, hfb2] at herr
              refine Or.inr ⟨image.getD e.1.toNat ⟨0, 0, 0, 0⟩, ?_⟩
              simpa using herr.symm
            · simp only [fallingAlt, hfb2] at herr
              exact absurd herr (by simp)
          · simp only [hr] at herr
            by_cases hvoid : (ob == none || ob == some MINECRAFT_AIR_BLOCK) = true
            · rw [if_pos hvoid] at herr
              rcases hfb2 : Palette.find_block p (image.getD e.1.toNat ⟨0, 0, 0, 0⟩) true with _ | m2
              · simp only [fallingAlt, hfb2] at herr
                refine Or.inr ⟨image.getD e.1.toNat ⟨0, 0, 0, 0⟩, ?_⟩
                simpa using herr.symm
              · simp only [fallingAlt, hfb2] at herr
                exact absurd herr (by simp)
            · rw [if_neg hvoid] at herr
              exact absurd herr (by simp)
        · rw [if_neg hf] at herr
          exact absurd herr (by simp)

/-- C1 counterexample: two entries commit "A" to the same coordinate; the final
count for "A" is 2 (one per place call) while "A" finally occupies exactly one
coordinate of the sink — the counts do not reflect net occupancy. -/
theorem C1_net_count_counterexample :
    (mcConvert c1Image c1Positions c1Palette).toOption.map
        (fun st => (st.counts "A", netCount st.schem "A")) = some (2, 1) ∧
    (2 : Nat) ≠ 1 :=
  ⟨by decide, by decide⟩

/-- C1 (amended): the final counts tally raw place calls, not net occupancy — for
every completed run and every material, its count equals the number of loop
commits of that material, a coordinate overwritten later being counted once per
committing entry. -/
theorem C1_counts_are_raw_commits {σ : Type} (M : SinkModel σ) (p : PaletteState)
    (image : List RGBA) (positions : List (Int × Coord)) (init : σ) (st : ConvState σ)
    (h : convert_to_schematic_from_positions M init image positions p = .ok st)
    (m : String) :
    st.counts m = (commitTrace M p image positions init).count m := by
  have hx := convertAux_counts_eq_trace M p image positions _ st h m
  simpa using hx

/-- C1 (amended) witness: on the double-commit mapping the count of "A" equals the
length-2 commit trace's tally. -/
theorem C1_counts_are_raw_commits_witness :
    ∃ st, convert_to_schematic_from_positions mcSink ([] : Schem) c1Image c1Positions
        c1Palette = .ok st ∧
      st.counts "A" =
        (commitTrace mcSink c1Palette c1Image c1Positions ([] : Schem)).count "A" := by
  rcases hok : convert_to_schematic_from_positions mcSink ([] : Schem) c1Image c1Positions
      c1Palette with err | st
  · exfalso
    have hx : (convert_to_schematic_from_positions mcSink ([] : Schem) c1Image c1Positions
        c1Palette).toOption.map (fun s => s.processed) = some 2 := by decide
    rw [hok] at hx
    simp [Except.toOption] at hx
  · exact ⟨st, rfl,
      C1_counts_are_raw_commits mcSink c1Palette c1Image c1Positions [] st hok "A"⟩

/-- C2: when the primary match is a falling material, the coordinate below reads
as unoccupied (`None` or air), and some non-falling material exists in the active
palette, the engine commits the nearest non-falling match (the result of the
exclude-falling re-match), which is itself non-falling and in particular is never
the falling primary match. -/
theorem C2_unsupported_falling_substituted {σ : Type} (M : SinkModel σ)
    (p : PaletteState) (image : List RGBA) (schem : σ) (idx x y z : Int)
    (rgba : RGBA) (m : String)
    (h0 : 0 ≤ idx) (h1 : idx < (image.length : Int))
    (hpix : image.getD idx.toNat ⟨0, 0, 0, 0⟩ = rgba)
    (ha : rgba.a ≠ TRANSPARENT_ALPHA)
    (hfind : Palette.find_block p rgba false = some m)
    (hfall : (Palette.get_falling_blocks p).contains m = true)
    (hbelow : M.getBlockStateAt schem (x, y + SUPPORT_CHECK_OFFSET, z) = .ok none ∨
      M.getBlockStateAt schem (x, y + SUPPORT_CHECK_OFFSET, z) = .ok (some MINECRAFT_AIR_BLOCK))
    (hex : ∃ b ∈ p.blocks, (Palette.get_falling_blocks p).contains b.block = false) :
    ∃ malt, Palette.find_block p rgba true = some malt ∧
      processEntry M p image schem (idx, (x, y, z)) = .ok (.commit malt) ∧
      (Palette.get_falling_blocks p).contains malt = false ∧
      malt ≠ m := by
  have hex2 : ∃ b ∈ p.blocks, Palette.elig (Palette.get_falling_blocks p) true b = true := by
    rcases hex with ⟨b, hb, hc⟩
    exact ⟨b, hb, by unfold Palette.elig; rw [hc]; rfl⟩
  rcases Palette.find_block_spec p rgba true hex2 with ⟨i, hi, heli, heq, hmin, hfirst⟩
  refine ⟨_, heq, ?_, Palette.find_block_true_not_falling p rgba _ heq, ?_⟩
  · rw [processEntry_matched M p image schem idx x y z rgba m h0 h1 hpix ha hfind]
    rw [if_pos hfall]
    rcases hbelow with hb | hb
    · simp only [hb]
      simp [fallingAlt, heq]
    · simp only [hb]
      simp [fallingAlt, heq]
  · intro hmm
    have := Palette.find_block_true_not_falling p rgba _ heq
    rw [hmm] at this
    rw [hfall] at this
    exact absurd this (by simp)

/-- C2 witness: a one-pixel near-white image over a palette with non-falling "S"
and falling "B"; the coordinate below is empty, and "S" gets committed. -/
theorem C2_unsupported_falling_substituted_witness :
    ∃ malt,
      Palette.find_block
          (PaletteState.mk [⟨"S", ⟨0, 0, 0, 255⟩⟩, ⟨"B", ⟨255, 255, 255, 255⟩⟩]
            [("falling_blocks", ["B"])]) ⟨250, 250, 250, 255⟩ true = some malt ∧
      processEntry mcSink
          (PaletteState.mk [⟨"S", ⟨0, 0, 0, 255⟩⟩, ⟨"B", ⟨255, 255, 255, 255⟩⟩]
            [("falling_blocks", ["B"])]) [⟨250, 250, 250, 255⟩]
          ([] : Schem) (0, (0, 1, 0)) = .ok (.commit malt) ∧
      (Palette.get_falling_blocks
          (PaletteState.mk [⟨"S", ⟨0, 0, 0, 255⟩⟩, ⟨"B", ⟨255, 255, 255, 255⟩⟩]
            [("falling_blocks", ["B"])])).contains malt = false ∧
      malt ≠ "B" :=
  C2_unsupported_falling_substituted mcSink _ _ _ 0 0 1 0 ⟨250, 250, 250, 255⟩ "B"
    (by decide) (by decide) (by decide) (by decide) (by decide) (by decide)
    (Or.inl rfl) ⟨⟨"S", ⟨0, 0, 0, 255⟩⟩, by decide, by decide⟩

/-- C3: a falling-material match with a non-void occupant directly below — one an
earlier entry of the same run may have placed — is committed unchanged; and the
spec's two-entry scenario yields placements (0,0,0) ↦ A, (0,1,0) ↦ B with counts
A:1, B:1. -/
theorem C3_supported_falling_kept {σ : Type} (M : SinkModel σ)
    (p : PaletteState) (image : List RGBA) (schem : σ) (idx x y z : Int)
    (rgba : RGBA) (m w : String)
    (h0 : 0 ≤ idx) (h1 : idx < (image.length : Int))
    (hpix : image.getD idx.toNat ⟨0, 0, 0, 0⟩ = rgba)
    (ha : rgba.a ≠ TRANSPARENT_ALPHA)
    (hfind : Palette.find_block p rgba false = some m)
    (hfall : (Palette.get_falling_blocks p).contains m = true)
    (hbelow : M.getBlockStateAt schem (x, y + SUPPORT_CHECK_OFFSET, z) = .ok (some w))
    (hw : w ≠ MINECRAFT_AIR_BLOCK) :
    processEntry M p image schem (idx, (x, y, z)) = .ok (.commit m) ∧
    (mcConvert scenImage scenPositions scenPalette).toOption.map
        (fun st => (st.counts "A", st.counts "B",
          schemGet st.schem (0, 0, 0), schemGet st.schem (0, 1, 0))) =
      some (1, 1, some "A", some "B") := by
  constructor
  · rw [processEntry_matched M p image schem idx x y z rgba m h0 h1 hpix ha hfind]
    rw [if_pos hfall]
    simp [hbelow, hw]
  · decide

/-- C3 witness: the general part applied at the scenario's second entry, where the
first entry has already placed "A" at the coordinate below. -/
theorem C3_supported_falling_kept_witness :
    processEntry mcSink scenPalette scenImage [((0, 0, 0), "A")] (1, (0, 1, 0)) =
      .ok (.commit "B") ∧
    (mcConvert scenImage scenPositions scenPalette).toOption.map
        (fun st => (st.counts "A", st.counts "B",
          schemGet st.schem (0, 0, 0), schemGet st.schem (0, 1, 0))) =
      some (1, 1, some "A", some "B") :=
  C3_supported_falling_kept mcSink scenPalette scenImage [((0, 0, 0), "A")]
    1 0 1 0 ⟨240, 240, 240, 255⟩ "B" "A"
    (by decide) (by decide) (by decide) (by decide) (by decide) (by decide)
    rfl (by decide)

/-- C4: a non-empty custom allow-list naming only identifiers unknown to the
catalog makes palette resolution fail with an error rather than fall back to the
full catalog; and resolution never returns an empty block list — an empty
post-filter result is always fatal. -/
theorem C4_empty_palette_fatal (all_blocks : List BlockEntry)
    (blocktypes predefined : List (String × List String)) (settings : Settings) :
    (hasCustomPalette settings = true →
      (∀ b ∈ all_blocks, (settings.custom_palette.getD []).contains b.block = false) →
      ∃ msg, apply_settings all_blocks blocktypes predefined settings = .error msg) ∧
    (∀ bs, apply_settings all_blocks blocktypes predefined settings = .ok bs →
      bs ≠ []) := by
  constructor
  · intro hcp hnone
    have hne : (settings.custom_palette.getD []).isEmpty = false := by
      unfold hasCustomPalette at hcp
      rcases hcpv : settings.custom_palette with _ | l
      · rw [hcpv] at hcp
        exact absurd hcp (by simp)
      · rw [hcpv] at hcp
        simpa using hcp
    have hfil : all_blocks.filter
        (fun b => (settings.custom_palette.getD []).contains b.block) = [] := by
      rw [List.filter_eq_nil_iff]
      intro b hb
      rw [hnone b hb]
      simp
    have hbase : filter_blocks_by_palette all_blocks (settings.custom_palette.getD []) =
        .error "Palette contains no valid blocks" := by
      simp only [filter_blocks_by_palette]
      rw [if_neg (by rw [hne]; simp)]
      rw [hfil]
      rfl
    refine ⟨"Palette contains no valid blocks", ?_⟩
    simp only [apply_settings]
    rw [if_pos hcp]
    simp only [hbase]
  · intro bs h
    simp only [apply_settings] at h
    split at h
    · cases h
    · split at h
      · cases h
      · rename_i hemp
        cases h
        intro hnil
        apply hemp
        rw [hnil]
        rfl

/-- C4 witness: a one-block catalog and an allow-list naming only the unknown
"XYZ" resolves to an error. -/
theorem C4_empty_palette_fatal_witness :
    ∃ msg, apply_settings [⟨"A", ⟨0, 0, 0, 255⟩⟩] [] []
        ⟨some ["XYZ"], "none", []⟩ = .error msg :=
  (C4_empty_palette_fatal [⟨"A", ⟨0, 0, 0, 255⟩⟩] [] [] ⟨some ["XYZ"], "none", []⟩).1
    (by decide) (by decide)

/-- C5: for every non-empty palette and color, `find_block` returns the block of a
palette entry whose Manhattan distance over the four channels is minimal, and among
ties the first in iteration order (every strictly earlier entry has strictly
greater distance). -/
theorem C5_find_block_nearest_first (p : PaletteState) (rgba : RGBA)
    (h : p.blocks ≠ []) :
    ∃ i, ∃ hi : i < p.blocks.length,
      Palette.find_block p rgba false = some ((p.blocks.get ⟨i, hi⟩).block) ∧
      (∀ b' ∈ p.blocks,
        Palette.color_distance rgba (p.blocks.get ⟨i, hi⟩).color ≤
          Palette.color_distance rgba b'.color) ∧
      (∀ b' ∈ p.blocks.take i,
        Palette.color_distance rgba (p.blocks.get ⟨i, hi⟩).color <
          Palette.color_distance rgba b'.color) := by
  rcases List.exists_mem_of_ne_nil p.blocks h with ⟨b, hb⟩
  rcases Palette.find_block_spec p rgba false ⟨b, hb, Palette.elig_false_true _ b⟩ with
    ⟨i, hi, _, heq, hmin, hfirst⟩
  exact ⟨i, hi, heq,
    fun b' hb' => hmin b' hb' (Palette.elig_false_true _ b'),
    fun b' hb' => hfirst b' hb' (Palette.elig_false_true _ b')⟩

/-- C5 witness: a two-block palette whose entries tie in distance; the theorem
applies and the returned block is the first of the two. -/
theorem C5_find_block_nearest_first_witness :
    ∃ i, ∃ hi : i < (PaletteState.mk [⟨"A", ⟨0, 0, 0, 255⟩⟩, ⟨"B", ⟨0, 0, 0, 255⟩⟩] []).blocks.length,
      Palette.find_block (PaletteState.mk [⟨"A", ⟨0, 0, 0, 255⟩⟩, ⟨"B", ⟨0, 0, 0, 255⟩⟩] [])
          ⟨1, 1, 1, 255⟩ false =
        some (((PaletteState.mk [⟨"A", ⟨0, 0, 0, 255⟩⟩, ⟨"B", ⟨0, 0, 0, 255⟩⟩] []).blocks.get ⟨i, hi⟩).block) ∧
      (∀ b' ∈ (PaletteState.mk [⟨"A", ⟨0, 0, 0, 255⟩⟩, ⟨"B", ⟨0, 0, 0, 255⟩⟩] []).blocks,
        Palette.color_distance ⟨1, 1, 1, 255⟩
            (((PaletteState.mk [⟨"A", ⟨0, 0, 0, 255⟩⟩, ⟨"B", ⟨0, 0, 0, 255⟩⟩] []).blocks.get ⟨i, hi⟩)).color ≤
          Palette.color_distance ⟨1, 1, 1, 255⟩ b'.color) ∧
      (∀ b' ∈ (PaletteState.mk [⟨"A", ⟨0, 0, 0, 255⟩⟩, ⟨"B", ⟨0, 0, 0, 255⟩⟩] []).blocks.take i,
        Palette.color_distance ⟨1, 1, 1, 255⟩
            (((PaletteState.mk [⟨"A", ⟨0, 0, 0, 255⟩⟩, ⟨"B", ⟨0, 0, 0, 255⟩⟩] []).blocks.get ⟨i, hi⟩)).color <
          Palette.color_distance ⟨1, 1, 1, 255⟩ b'.color) :=
  C5_find_block_nearest_first _ _ (by decide)

/-- C6: with a non-empty active palette the unfiltered nearest-material query never
returns `none`, so the engine's fatal no-match branch after the primary match can
never be taken: any error the per-entry step raises is a no-supported-match error,
never a no-match error. -/
theorem C6_noMatch_unreachable {σ : Type} (M : SinkModel σ) (p : PaletteState)
    (image : List RGBA) (schem : σ) (e : Int × Coord)
    (h : p.blocks ≠ []) :
    (∀ rgba, (Palette.find_block p rgba false).isSome = true) ∧
    (∀ err, processEntry M p image schem e = .error err →
      ∀ c, err ≠ ConvError.noMatch c) := by
  refine ⟨fun rgba => Palette.find_block_isSome p rgba h, ?_⟩
  intro err herr c
  rcases processEntry_error_inv M p image schem e err herr with ⟨c0, rfl, hnone⟩ | ⟨c0, rfl⟩
  · have := Palette.find_block_isSome p c0 h
    rw [hnone] at this
    exact absurd this (by simp)
  · intro hc
    exact absurd hc (by simp)

/-- C6 witness at a concrete palette, sink and entry. -/
theorem C6_noMatch_unreachable_witness :
    (∀ rgba,
      (Palette.find_block (PaletteState.mk [⟨"A", ⟨0, 0, 0, 255⟩⟩] []) rgba false).isSome = true) ∧
    (∀ err,
      processEntry mcSink (PaletteState.mk [⟨"A", ⟨0, 0, 0, 255⟩⟩] []) [⟨5, 5, 5, 255⟩]
          ([] : Schem) (0, (0, 0, 0)) = .error err →
      ∀ c, err ≠ ConvError.noMatch c) :=
  C6_noMatch_unreachable mcSink _ _ _ _ (by decide)

/-- C7: when a falling match needs substitution (no support below, or the support
read raised) and every palette block is falling, the per-entry step fails with the
no-supported-match error and the whole run aborts with that error — no state, and
so no placement for that entry or any later one, is produced. -/
theorem C7_no_supported_match_aborts {σ : Type} (M : SinkModel σ) (p : PaletteState)
    (image : List RGBA) (pre post : List (Int × Coord)) (st0 st : ConvState σ)
    (idx x y z : Int) (rgba : RGBA) (m : String)
    (hpre : convertAux M p image pre st0 = .ok st)
    (h0 : 0 ≤ idx) (h1 : idx < (image.length : Int))
    (hpix : image.getD idx.toNat ⟨0, 0, 0, 0⟩ = rgba)
    (ha : rgba.a ≠ TRANSPARENT_ALPHA)
    (hfind : Palette.find_block p rgba false = some m)
    (hfall : (Palette.get_falling_blocks p).contains m = true)
    (hbelow : M.getBlockStateAt st.schem (x, y + SUPPORT_CHECK_OFFSET, z) = .ok none ∨
      M.getBlockStateAt st.schem (x, y + SUPPORT_CHECK_OFFSET, z) = .ok (some MINECRAFT_AIR_BLOCK) ∨
      (∃ u, M.getBlockStateAt st.schem (x, y + SUPPORT_CHECK_OFFSET, z) = .error u))
    (hall : ∀ b ∈ p.blocks, (Palette.get_falling_blocks p).contains b.block = true) :
    processEntry M p image st.schem (idx, (x, y, z)) = .error (.noSupportedMatch rgba) ∧
    convertAux M p image (pre ++ (idx, (x, y, z)) :: post) st0 =
      .error (.noSupportedMatch rgba) := by
  have halt : Palette.find_block p rgba true = none :=
    Palette.find_block_none_of_all_falling p rgba hall
  have hstep : processEntry M p image st.schem (idx, (x, y, z)) =
      .error (.noSupportedMatch rgba) := by
    rw [processEntry_matched M p image st.schem idx x y z rgba m h0 h1 hpix ha hfind]
    rw [if_pos hfall]
    rcases hbelow with hb | hb | ⟨u, hb⟩
    · simp [hb, fallingAlt, halt]
    · simp [hb, fallingAlt, halt]
    · simp [hb, fallingAlt, halt]
  refine ⟨hstep, ?_⟩
  rw [convertAux_append]
  simp only [hpre]
  rw [convertAux]
  simp [convStep, hstep]

/-- C7 witness: single falling block "B", nothing below, and a later entry that is
never reached: the run aborts with the no-supported-match error. -/
theorem C7_no_supported_match_aborts_witness :
    processEntry mcSink c7Palette [⟨240, 240, 240, 255⟩] ([] : Schem) (0, (0, 1, 0)) =
      .error (.noSupportedMatch ⟨240, 240, 240, 255⟩) ∧
    convertAux mcSink c7Palette [⟨240, 240, 240, 255⟩]
        ([] ++ (0, (0, 1, 0)) :: [((0 : Int), ((5 : Int), (5 : Int), (5 : Int)))])
        (initState ([] : Schem)) =
      .error (.noSupportedMatch ⟨240, 240, 240, 255⟩) :=
  C7_no_supported_match_aborts mcSink c7Palette [⟨240, 240, 240, 255⟩]
    [] [((0 : Int), ((5 : Int), (5 : Int), (5 : Int)))] (initState ([] : Schem))
    (initState ([] : Schem)) 0 0 1 0 ⟨240, 240, 240, 255⟩ "B"
    rfl (by decide) (by decide) (by decide) (by decide) (by decide) (by decide)
    (Or.inl rfl) (by decide)

/-- C8: when the support-check read raises, the engine treats it exactly as
"no support": it re-matches with falling materials excluded and commits that
result when one exists; the read failure itself never aborts the placement — the
only possible failure is the no-supported-match configuration error. -/
theorem C8_read_error_as_no_support {σ : Type} (M : SinkModel σ)
    (p : PaletteState) (image : List RGBA) (schem : σ) (idx x y z : Int)
    (rgba : RGBA) (m : String)
    (h0 : 0 ≤ idx) (h1 : idx < (image.length : Int))
    (hpix : image.getD idx.toNat ⟨0, 0, 0, 0⟩ = rgba)
    (ha : rgba.a ≠ TRANSPARENT_ALPHA)
    (hfind : Palette.find_block p rgba false = some m)
    (hfall : (Palette.get_falling_blocks p).contains m = true)
    (hread : M.getBlockStateAt schem (x, y + SUPPORT_CHECK_OFFSET, z) = .error ()) :
    (∀ malt, Palette.find_block p rgba true = some malt →
      processEntry M p image schem (idx, (x, y, z)) = .ok (.commit malt)) ∧
    (Palette.find_block p rgba true = none →
      processEntry M p image schem (idx, (x, y, z)) = .error (.noSupportedMatch rgba)) := by
  constructor
  · intro malt halt
    rw [processEntry_matched M p image schem idx x y z rgba m h0 h1 hpix ha hfind]
    rw [if_pos hfall]
    simp [hread, fallingAlt, halt]
  · intro halt
    rw [processEntry_matched M p image schem idx x y z rgba m h0 h1 hpix ha hfind]
    rw [if_pos hfall]
    simp [hread, fallingAlt, halt]

/-- C8 witness: on the always-raising sink the falling match "B" is replaced by
the non-falling "S". -/
theorem C8_read_error_as_no_support_witness :
    (∀ malt,
      Palette.find_block
          (PaletteState.mk [⟨"S", ⟨0, 0, 0, 255⟩⟩, ⟨"B", ⟨255, 255, 255, 255⟩⟩]
            [("falling_blocks", ["B"])]) ⟨250, 250, 250, 255⟩ true = some malt →
      processEntry failSink
          (PaletteState.mk [⟨"S", ⟨0, 0, 0, 255⟩⟩, ⟨"B", ⟨255, 255, 255, 255⟩⟩]
            [("falling_blocks", ["B"])]) [⟨250, 250, 250, 255⟩] () (0, (0, 1, 0)) =
        .ok (.commit malt)) ∧
    (Palette.find_block
          (PaletteState.mk [⟨"S", ⟨0, 0, 0, 255⟩⟩, ⟨"B", ⟨255, 255, 255, 255⟩⟩]
            [("falling_blocks", ["B"])]) ⟨250, 250, 250, 255⟩ true = none →
      processEntry failSink
          (PaletteState.mk [⟨"S", ⟨0, 0, 0, 255⟩⟩, ⟨"B", ⟨255, 255, 255, 255⟩⟩]
            [("falling_blocks", ["B"])]) [⟨250, 250, 250, 255⟩] () (0, (0, 1, 0)) =
        .error (.noSupportedMatch ⟨250, 250, 250, 255⟩)) :=
  C8_read_error_as_no_support failSink _ _ () 0 0 1 0 ⟨250, 250, 250, 255⟩ "B"
    (by decide) (by decide) (by decide) (by decide) (by decide) (by decide) rfl

/-- C9: in a completed run, the out-of-bounds skip tally is exactly the number of
entries whose index misses the image, the transparent tally exactly the number of
in-range entries with zero alpha, every such entry produces no placement, and the
remaining entries — their count plus the two skip counts totalling the mapping
length — all proceed to a match attempt (and, the run having completed, commit). -/
theorem C9_skip_counting {σ : Type} (M : SinkModel σ) (p : PaletteState)
    (image : List RGBA) (positions : List (Int × Coord)) (init : σ) (st : ConvState σ)
    (h : convert_to_schematic_from_positions M init image positions p = .ok st) :
    st.skipped_oob = positions.countP (fun e => isOOBEntry image e) ∧
    st.skipped_transparent = positions.countP (fun e => isTranspEntry image e) ∧
    st.processed = positions.countP (fun e => isAttemptedEntry image e) ∧
    positions.countP (fun e => isOOBEntry image e) +
      positions.countP (fun e => isTranspEntry image e) +
      positions.countP (fun e => isAttemptedEntry image e) = positions.length := by
  rcases convertAux_counts M p image positions _ st h with ⟨h1, h2, h3⟩
  exact ⟨by simpa using h1, by simpa using h2, by simpa using h3,
    countP_entry_partition image positions⟩

/-- C9 witness: one out-of-range entry, one transparent entry, one attempted
entry. -/
theorem C9_skip_counting_witness :
    ∃ st, convert_to_schematic_from_positions mcSink ([] : Schem) c9Image c9Positions
        c9Palette = .ok st ∧
      st.skipped_oob = 1 ∧ st.skipped_transparent = 1 ∧ st.processed = 1 := by
  rcases hok : convert_to_schematic_from_positions mcSink ([] : Schem) c9Image c9Positions
      c9Palette with err | st
  · exfalso
    have hx : (convert_to_schematic_from_positions mcSink ([] : Schem) c9Image c9Positions
        c9Palette).toOption.map (fun s => s.processed) = some 1 := by decide
    rw [hok] at hx
    simp [Except.toOption] at hx
  · refine ⟨st, rfl, ?_, ?_, ?_⟩ <;>
      rcases C9_skip_counting mcSink c9Palette c9Image c9Positions [] st hok with
        ⟨h1, h2, h3, h4⟩
    · rw [h1]; decide
    · rw [h2]; decide
    · rw [h3]; decide

/-- C10: with no custom allow-list, a theme set but absent from the predefined
palettes resolves exactly as no theme at all: the run does not fail on the
unknown name but falls back to the full catalog minus category-disabled blocks,
succeeding whenever that set is non-empty. -/
theorem C10_unknown_theme_like_none (all_blocks : List BlockEntry)
    (blocktypes predefined : List (String × List String)) (settings : Settings)
    (h1 : hasCustomPalette settings = false)
    (h2 : settings.theme ≠ "none")
    (h3 : dictFind predefined settings.theme = none) :
    apply_settings all_blocks blocktypes predefined settings =
      apply_settings all_blocks blocktypes predefined
        { settings with theme := "none" } ∧
    (all_blocks.filter
        (fun b => !(disabledBlocks blocktypes settings.blocks_enabled).contains b.block) ≠ [] →
      apply_settings all_blocks blocktypes predefined settings =
        .ok (all_blocks.filter
          (fun b => !(disabledBlocks blocktypes settings.blocks_enabled).contains b.block))) := by
  have hL : apply_settings all_blocks blocktypes predefined settings =
      (if (all_blocks.filter
            (fun b => !(disabledBlocks blocktypes settings.blocks_enabled).contains b.block)).isEmpty
        then .error "No blocks available after applying palette and filters"
        else .ok (all_blocks.filter
          (fun b => !(disabledBlocks blocktypes settings.blocks_enabled).contains b.block))) := by
    simp only [apply_settings]
    rw [if_neg (by rw [h1]; simp)]
    rw [if_neg (by rw [h3]; simp)]
    rw [if_pos (by simpa using h2)]
  have hcp2 : hasCustomPalette { settings with theme := "none" } = false := h1
  have hR : apply_settings all_blocks blocktypes predefined { settings with theme := "none" } =
      (if (all_blocks.filter
            (fun b => !(disabledBlocks blocktypes settings.blocks_enabled).contains b.block)).isEmpty
        then .error "No blocks available after applying palette and filters"
        else .ok (all_blocks.filter
          (fun b => !(disabledBlocks blocktypes settings.blocks_enabled).contains b.block))) := by
    simp only [apply_settings]
    rw [if_neg (by rw [hcp2]; simp)]
    rw [if_neg (by simp)]
    rw [if_neg (by simp)]
  refine ⟨hL.trans hR.symm, ?_⟩
  intro hne
  rw [hL]
  rw [if_neg (by simpa using hne)]

/-- C10 witness: theme "t" unknown to an empty predefined-palette table behaves
like no theme and resolves to the full one-block catalog. -/
theorem C10_unknown_theme_like_none_witness :
    apply_settings [⟨"A", ⟨0, 0, 0, 255⟩⟩] [] [] ⟨none, "t", []⟩ =
      apply_settings [⟨"A", ⟨0, 0, 0, 255⟩⟩] [] [] ⟨none, "none", []⟩ ∧
    apply_settings [⟨"A", ⟨0, 0, 0, 255⟩⟩] [] [] ⟨none, "t", []⟩ =
      .ok [⟨"A", ⟨0, 0, 0, 255⟩⟩] := by
  have h := C10_unknown_theme_like_none [⟨"A", ⟨0, 0, 0, 255⟩⟩] [] [] ⟨none, "t", []⟩
    (by decide) (by decide) rfl
  exact ⟨h.1, h.2 (by decide)⟩
